import Mathlib

/-!
Verification of `classification/src/steps/embedding.py` (class `Embedding`).

The Python code is shallowly embedded: Python dicts become insertion-ordered
association lists with pairwise-distinct keys, the h5py archive becomes a
record of dataset contents together with an ordered trace of archive events,
and numpy arrays become Lean lists.  Tensors, the CUDA device, and the
concrete backbone modules are opaque: feature rows have an arbitrary type `F`,
examples an arbitrary type `E`, and a trained extractor is represented by the
batch forward map `model : List E → List F` plus the list of parameter names
it expects (`expectedKeys`).
-/

namespace FewShotEmbedding

/-- Python's substring test `pat in s`, over character lists: scan every
suffix of `s` for `pat` as a prefix (empty `pat` is contained in anything). -/
def containsSub (pat : List Char) : List Char → Bool
  | [] => pat.isEmpty
  | c :: rest => pat.isPrefixOf (c :: rest) || containsSub pat rest

/-- One step per unit of fuel of Python's `s.replace(pat, "")`: remove the
non-overlapping occurrences of `pat`, scanning left to right.  Fuel
`s.length` always suffices because every step consumes at least one
character of the remaining text. -/
def removeSubAux (pat : List Char) : Nat → List Char → List Char
  | _, [] => []
  | 0, s => s
  | fuel + 1, c :: rest =>
    if !pat.isEmpty && pat.isPrefixOf (c :: rest) then
      removeSubAux pat fuel ((c :: rest).drop pat.length)
    else
      c :: removeSubAux pat fuel rest

/-- Python's `s.replace(pat, "")` over character lists. -/
def removeSub (pat s : List Char) : List Char := removeSubAux pat s.length s

/-- Python's `pat in s` on strings. -/
def pyIn (pat s : String) : Bool := containsSub pat.data s.data

/-- Python's `s.replace(pat, "")` on strings. -/
def pyRemove (s pat : String) : String := ⟨removeSub pat.data s.data⟩

/-- A Python dict: an insertion-ordered association list whose keys are
pairwise distinct. -/
abbrev Dict (V : Type) : Type := List (String × V)

/-- Python `d[key]` / `d.get(key)`: the value at the first matching key. -/
def dictLookup {V : Type} : Dict V → String → Option V
  | [], _ => none
  | (k, v) :: rest, key => if k = key then some v else dictLookup rest key

/-- Effect of Python `d.pop(key)` on the mapping: remove the binding of
`key` (Python raises `KeyError` when the key is absent; all uses below pop
keys taken from a snapshot of the dict, so the key is present). -/
def dictPop {V : Type} : Dict V → String → Dict V
  | [], _ => []
  | (k, v) :: rest, key => if k = key then rest else (k, v) :: dictPop rest key

/-- Effect of Python `d[key] = v`: update the binding in place when `key` is
present, otherwise append a new binding at the end (insertion order). -/
def dictSet {V : Type} : Dict V → String → V → Dict V
  | [], key, v => [(key, v)]
  | (k, w) :: rest, key, v =>
    if k = key then (key, v) :: rest else (k, w) :: dictSet rest key v

/-- The marker `"feature."` tested and stripped by `Embedding._load_model`. -/
def featureMarker : String := "feature."

/-- The test `"feature." in state_key` from `_load_model`. -/
def isFeatureKey (k : String) : Bool := pyIn featureMarker k

/-- The renaming `state_key.replace("feature.", "")` from `_load_model`. -/
def renameKey (k : String) : String := pyRemove k featureMarker

/-- One iteration of the key loop in `Embedding._load_model`:
`state[newkey] = state.pop(state_key)` when `"feature." in state_key`,
otherwise `state.pop(state_key)`.  The `none` branch of the lookup models
the (unreachable, since keys come from a snapshot of the same dict)
`KeyError` case as a plain pop. -/
def filterStep {V : Type} (d : Dict V) (key : String) : Dict V :=
  if isFeatureKey key then
    match dictLookup d key with
    | some v => dictSet (dictPop d key) (renameKey key) v
    | none => dictPop d key
  else
    dictPop d key

/-- The `for state_key in state_keys:` loop of `_load_model`, iterating over
a snapshot of the keys. -/
def filterLoop {V : Type} : Dict V → List String → Dict V
  | d, [] => d
  | d, k :: ks => filterLoop (filterStep d k) ks

/-- The whole filtering pass of `_load_model`: iterate the loop over
`state_keys = list(state.keys())`. -/
def filterState {V : Type} (state : Dict V) : Dict V :=
  filterLoop state (state.map Prod.fst)

/-- Key-set comparison performed by torch's `load_state_dict` with its
default `strict=True`: the provided keys and the module's expected parameter
names must agree as sets (missing or unexpected keys are an error). -/
def keySetEq (ks expected : List String) : Bool :=
  ks.all (fun k => expected.contains k) && expected.all (fun k => ks.contains k)

/-- The error raised by a strict `load_state_dict` on a key mismatch. -/
def loadStateDictMsg : String := "Error(s) in loading state_dict"

/-- `Embedding._load_model`: copy the `state` sub-mapping, filter and rename
its keys, and strictly load the result into the freshly constructed
extractor (whose construction is opaque here; `expectedKeys` are the
parameter names it expects).  On success the loaded parameter mapping is
returned; on a key mismatch the `load_state_dict` error propagates. -/
def loadModel {V : Type} (expectedKeys : List String) (modelStateState : Dict V) :
    Except String (Dict V) :=
  let state := modelStateState
  let filtered := filterState state
  if keySetEq (filtered.map Prod.fst) expectedKeys then Except.ok filtered
  else Except.error loadStateDictMsg

/-- A tiny Python heap: object references are indices into a list of dict
objects.  Used to express that `_load_model` mutates only the fresh copy
made by `model_state['state'].copy()` and never the caller's object. -/
structure PyHeap (V : Type) where
  objs : List (Dict V)
deriving DecidableEq

/-- Dereference an object (absent references dereference to the empty dict). -/
def PyHeap.get {V : Type} (h : PyHeap V) (r : Nat) : Dict V := h.objs.getD r []

/-- Allocate a fresh object holding `d`; returns the new heap and reference. -/
def PyHeap.alloc {V : Type} (h : PyHeap V) (d : Dict V) : PyHeap V × Nat :=
  (⟨h.objs ++ [d]⟩, h.objs.length)

/-- Overwrite the object at reference `r`. -/
def PyHeap.setObj {V : Type} (h : PyHeap V) (r : Nat) (d : Dict V) : PyHeap V :=
  ⟨h.objs.set r d⟩

/-- Heap-level view of `_load_model`'s treatment of `model_state`:
`state = model_state['state'].copy()` allocates a fresh object initialised
with the contents of the object at `stateRef`, and the whole filter loop
mutates only that fresh object. -/
def loadModelOnHeap {V : Type} (h : PyHeap V) (stateRef : Nat) : PyHeap V × Nat :=
  let copied := h.get stateRef
  let (h1, r) := h.alloc copied
  (h1.setObj r (filterState copied), r)

/-- Does the string start with the character `'/'`?  (Python's
`b.startswith('/')` as used by `posixpath.join`.) -/
def startsWithSlash (s : String) : Bool := s.data.head? == some '/'

/-- Does the string end with the character `'/'`? -/
def endsWithSlash (s : String) : Bool := s.data.getLast? == some '/'

/-- `os.path.join(a, b)` for a single component, posixpath semantics:
an absolute `b` wins; otherwise a separator is inserted unless `a` is empty
or already ends with one. -/
def osPathJoin (a b : String) : String :=
  if startsWithSlash b then b
  else if a = "" then a ++ b
  else if endsWithSlash a then a ++ b
  else a ++ "/" ++ b

/-- `os.path.dirname(p)`, posixpath semantics: everything up to the last
separator, with trailing separators stripped unless the head is nothing but
separators. -/
def osDirname (p : String) : String :=
  match p.data.reverse.findIdx? (fun c => c == '/') with
  | none => ""
  | some j =>
    let head := p.data.take (p.data.length - j)
    if head.all (fun c => c == '/') then ⟨head⟩
    else ⟨(head.reverse.dropWhile (fun c => c == '/')).reverse⟩

/-- The configuration fixed by `Embedding.__init__` (fields irrelevant to
the verified behaviour, such as the way counts, are omitted;
`checkpoint_dir` stands for the value computed by the external helper
`path_to_step_output`). -/
structure Config where
  dataset : String
  backbone : String
  method : String
  split : String
  save_iter : Int
  checkpoint_dir : String
  shallow : Bool
deriving DecidableEq

/-- The meta-learning methods rejected by `Embedding.apply`. -/
def metaMethods : List String := ["maml", "maml_approx"]

/-- The marker tested by `'Conv' in self.backbone`. -/
def convMarker : String := "Conv"

/-- The archive suffix used by `_get_data_loader_and_outfile`. -/
def hdf5Ext : String := ".hdf5"

/-- The separator of the `f'{split}_{save_iter}.hdf5'` format. -/
def underscoreSep : String := "_"

/-- Message of the `assert` at the top of `_get_data_loader_and_outfile`. -/
def assertMsg : String := "maml do not support save_feature and run"

/-- The output-file selection of `_get_data_loader_and_outfile`:
`<checkpoint_dir>/<split>_<save_iter>.hdf5` when `save_iter != -1`, else
`<checkpoint_dir>/<split>.hdf5`. -/
def outfileFor (cfg : Config) : String :=
  if cfg.save_iter ≠ -1 then
    osPathJoin cfg.checkpoint_dir
      (cfg.split ++ underscoreSep ++ toString cfg.save_iter ++ hdf5Ext)
  else
    osPathJoin cfg.checkpoint_dir (cfg.split ++ hdf5Ext)

/-- Filesystem side effects outside the archive itself. -/
inductive FsEvent where
  | makedirs (dir : String)
deriving DecidableEq

/-- Result of `_get_data_loader_and_outfile`: the image resolution handed to
`SimpleDataManager`, the archive path, the fixed batch size 64, and the
directory-creation effect. -/
structure LoaderOutfile where
  imageSize : Nat
  outfile : String
  batchSize : Nat
  fsEvents : List FsEvent
deriving DecidableEq

/-- `Embedding._get_data_loader_and_outfile`.  The leading `assert` fails
for the maml methods (`none`); otherwise the image size is 84 when
`'Conv' in backbone` and 224 otherwise, the outfile is as in `outfileFor`,
the data manager is built with `batch_size=64`, and the directory containing
the outfile is created when absent (`dirIsPresent` is the oracle for
`os.path.isdir`).  The dataset-manifest lookup `get_path_to_json` is an
external pure collaborator and is not modelled. -/
def getDataLoaderAndOutfile (cfg : Config) (dirIsPresent : Bool) :
    Option LoaderOutfile :=
  if cfg.method = "maml" ∨ cfg.method = "maml_approx" then none
  else
    let imageSize := if pyIn convMarker cfg.backbone then 84 else 224
    let outfile := outfileFor cfg
    some { imageSize := imageSize, outfile := outfile, batchSize := 64,
           fsEvents :=
             if dirIsPresent then [] else [FsEvent.makedirs (osDirname outfile)] }

/-- Ordered trace of operations performed on the h5py archive. -/
inductive H5Event (F : Type) where
  | openW
  | createLabels (capacity : Nat)
  | createFeats (capacity : Nat)
  | writeFeats (lo : Nat) (rows : List F)
  | writeLabels (lo : Nat) (vals : List Int)
  | createCount
  | writeCount (n : Nat)
  | close
deriving DecidableEq

/-- numpy / h5py slice assignment `a[lo : lo + len(vals)] = vals`.  numpy
raises on an out-of-range or length-mismatched assignment; the theorems
below restrict to data-loader-shaped inputs for which the slice fits
exactly, where this definition is the assignment's exact effect. -/
def setSlice {α : Type} (a : List α) (lo : Nat) (vals : List α) : List α :=
  a.take lo ++ vals.take (a.length - lo) ++ a.drop (lo + vals.length)

/-- State of `_save_features`: the archive trace, the contents of the three
archive datasets (`all_feats` is created lazily on the first batch, `count`
only at the end), the in-memory mirror arrays that are returned, and the
running write offset `count`. -/
structure SaveState (F : Type) where
  events : List (H5Event F)
  h5labels : List Int
  h5feats : Option (List F)
  h5count : Option Nat
  memLabels : List Int
  memFeats : Option (List F)
  count : Nat
deriving DecidableEq

/-- Body of the `for i, (x, y) in enumerate(data_loader):` loop of
`_save_features`: run the forward pass, lazily create the `all_feats`
dataset and its zero-initialised in-memory mirror from the first batch,
write the feature rows and labels into the archive and the mirrors at
offset `count`, and advance `count` by `feats.size(0)`.  The progress
`print` has no modelled effect. -/
def processBatch {E F : Type} (zF : F) (maxCount : Nat) (model : List E → List F)
    (st : SaveState F) (batch : List E × List Int) : SaveState F :=
  let feats := model batch.1
  let st1 :=
    match st.h5feats with
    | none =>
      { st with
        events := st.events ++ [H5Event.createFeats maxCount],
        h5feats := some (List.replicate maxCount zF),
        memFeats := some (List.replicate maxCount zF) }
    | some _ => st
  { st1 with
    events := st1.events ++ [H5Event.writeFeats st1.count feats,
                             H5Event.writeLabels st1.count batch.2],
    h5feats := st1.h5feats.map (fun a => setSlice a st1.count feats),
    h5labels := setSlice st1.h5labels st1.count batch.2,
    memFeats := st1.memFeats.map (fun a => setSlice a st1.count feats),
    memLabels := setSlice st1.memLabels st1.count batch.2,
    count := st1.count + feats.length }

/-- State of `_save_features` just before the batch loop: the archive is
open, the `all_labels` dataset and its in-memory mirror are created filled
with zeros at capacity `maxCount`, `all_feats` does not exist yet, and the
write offset is 0. -/
def initialSaveState (F : Type) (maxCount : Nat) : SaveState F :=
  { events := [H5Event.openW, H5Event.createLabels maxCount],
    h5labels := List.replicate maxCount 0,
    h5feats := none,
    h5count := none,
    memLabels := List.replicate maxCount 0,
    memFeats := none,
    count := 0 }

/-- `Embedding._save_features`: open the archive, create the zero-filled
`all_labels` dataset and in-memory mirror at capacity
`len(data_loader) * batch_size`, run the batch loop, then create and write
the scalar `count` dataset and close the file, returning the final state
(whose `memFeats` / `memLabels` are the returned arrays). -/
def saveFeatures {E F : Type} (zF : F) (model : List E → List F)
    (batches : List (List E × List Int)) (batchSize : Nat) : SaveState F :=
  let maxCount := batches.length * batchSize
  let looped := batches.foldl (processBatch zF maxCount model)
    (initialSaveState F maxCount)
  { looped with
    events := looped.events ++ [H5Event.createCount,
                                H5Event.writeCount looped.count, H5Event.close],
    h5count := some looped.count }

/-- Result of `Embedding.apply`: the returned value
(`None` for meta-learning methods, otherwise the
`(all_feats_array, all_labels_array)` pair), the archive state produced by
`_save_features` when it ran, and filesystem effects outside the archive. -/
structure ApplyResult (F : Type) where
  returned : Option (Option (List F) × List Int)
  save : Option (SaveState F)
  fsEvents : List FsEvent
deriving DecidableEq

/-- `Embedding.apply`.  `set_and_print_random_seed` is not under `src/`;
modelled from the spec: it seeds the global random source and records/logs
the seed, performing no archive writes.  For a maml method the step logs and
returns `None`; otherwise the extractor is loaded (a `load_state_dict` key
mismatch propagates as an error), the data loader and outfile are resolved,
and extraction runs.  `batches` is the content of the data loader and
`dirIsPresent` the `os.path.isdir` oracle. -/
def Embedding.apply {V E F : Type} (cfg : Config) (expectedKeys : List String)
    (modelStateState : Dict V) (zF : F) (model : List E → List F)
    (batches : List (List E × List Int)) (dirIsPresent : Bool) :
    Except String (ApplyResult F) :=
  if cfg.method ∈ metaMethods then
    Except.ok { returned := none, save := none, fsEvents := [] }
  else
    match loadModel expectedKeys modelStateState with
    | Except.error e => Except.error e
    | Except.ok _ =>
      match getDataLoaderAndOutfile cfg dirIsPresent with
      | none => Except.error assertMsg
      | some lo =>
        let st := saveFeatures zF model batches lo.batchSize
        Except.ok { returned := some (st.memFeats, st.memLabels),
                    save := some st,
                    fsEvents := lo.fsEvents }

/-- Loop-phase archive events: everything the batch loop can append. -/
def isLoopEvent {F : Type} : H5Event F → Prop
  | H5Event.createFeats _ => True
  | H5Event.writeFeats _ _ => True
  | H5Event.writeLabels _ _ => True
  | _ => False

/-- A concrete non-meta configuration used by witnesses. -/
def cfgBaseline : Config :=
  { dataset := "CUB", backbone := "Conv4", method := "baseline", split := "novel",
    save_iter := -1, checkpoint_dir := "output/CUB/Conv4_baseline",
    shallow := false }

/-- A concrete meta-learning configuration used by witnesses. -/
def cfgMaml : Config := { cfgBaseline with method := "maml" }

end FewShotEmbedding

namespace FewShotEmbedding

theorem dictPop_of_not_mem {V : Type} {d : Dict V} {key : String}
    (h : key ∉ d.map Prod.fst) : dictPop d key = d := by
  induction d with
  | nil => rfl
  | cons p rest ih =>
    obtain ⟨k, v⟩ := p
    simp only [List.map_cons, List.mem_cons, not_or] at h
    simp [dictPop, Ne.symm h.1, ih h.2]

theorem dictSet_of_not_mem {V : Type} {d : Dict V} {key : String} {v : V}
    (h : key ∉ d.map Prod.fst) : dictSet d key v = d ++ [(key, v)] := by
  induction d with
  | nil => rfl
  | cons p rest ih =>
    obtain ⟨k, w⟩ := p
    simp only [List.map_cons, List.mem_cons, not_or] at h
    simp [dictSet, Ne.symm h.1, ih h.2]

theorem nodup_append_singleton {α : Type} (l₁ l₂ : List α) (x : α)
    (h : (l₁ ++ l₂).Nodup) (hx : x ∉ l₁ ++ l₂) : (l₁ ++ (l₂ ++ [x])).Nodup := by
  rw [← List.append_assoc]
  refine List.nodup_append.mpr ⟨h, List.nodup_singleton x, ?_⟩
  intro a ha hb
  simp only [List.mem_singleton] at hb
  exact hx (hb ▸ ha)

/-- Characterisation of the `_load_model` key-filter loop: starting from
`pending ++ done` and iterating over the keys of `pending`, and provided the
renamed keys collide neither with each other nor with any key already
present, the loop drops every entry whose key lacks the `"feature."`
substring and moves each entry whose key has it to the end, renamed. -/
theorem filterLoop_spec {V : Type} (pending : Dict V) :
    ∀ done : Dict V,
      ((pending ++ done).map Prod.fst).Nodup →
      (∀ p ∈ pending, isFeatureKey p.1 = true →
        renameKey p.1 ∉ (pending ++ done).map Prod.fst) →
      ((pending.filter (fun p => isFeatureKey p.1)).map
        (fun p => renameKey p.1)).Nodup →
      filterLoop (pending ++ done) (pending.map Prod.fst) =
        done ++ (pending.filter (fun p => isFeatureKey p.1)).map
          (fun p => (renameKey p.1, p.2)) := by
  induction pending with
  | nil => intro done _ _ _; simp [filterLoop]
  | cons p rest ih =>
    intro done hnd h1 h2
    obtain ⟨k, v⟩ := p
    rw [List.cons_append, List.map_cons, List.nodup_cons] at hnd
    obtain ⟨hknotin, hnd'⟩ := hnd
    show filterLoop (filterStep ((k, v) :: (rest ++ done)) k) (rest.map Prod.fst)
      = done ++ (((k, v) :: rest).filter (fun p => isFeatureKey p.1)).map
          (fun p => (renameKey p.1, p.2))
    by_cases hf : isFeatureKey k = true
    · -- the entry is kept, renamed, and appended at the end
      have hrk : renameKey k ∉ ((k, v) :: (rest ++ done)).map Prod.fst := by
        simpa using h1 (k, v) (List.mem_cons_self _ _) hf
      simp only [List.map_cons, List.mem_cons, not_or] at hrk
      obtain ⟨hrk1, hrk2⟩ := hrk
      have hstep : filterStep ((k, v) :: (rest ++ done)) k
          = rest ++ (done ++ [(renameKey k, v)]) := by
        simp [filterStep, hf, dictLookup, dictPop, dictSet_of_not_mem hrk2,
          List.append_assoc]
      rw [hstep]
      have h2' : renameKey k ∉ ((rest.filter (fun p => isFeatureKey p.1)).map
            (fun p => renameKey p.1)) ∧
          ((rest.filter (fun p => isFeatureKey p.1)).map
            (fun p => renameKey p.1)).Nodup := by
        simpa [List.filter_cons, hf, List.nodup_cons] using h2
      obtain ⟨hrkdistinct, h2tail⟩ := h2'
      have hnd2 : ((rest ++ (done ++ [(renameKey k, v)])).map Prod.fst).Nodup := by
        have base : (rest.map Prod.fst ++ done.map Prod.fst).Nodup := by
          simpa [List.map_append] using hnd'
        have hx : renameKey k ∉ rest.map Prod.fst ++ done.map Prod.fst := by
          simpa [List.map_append] using hrk2
        have hres := nodup_append_singleton _ _ _ base hx
        simpa [List.map_append] using hres
      have h12 : ∀ q ∈ rest, isFeatureKey q.1 = true →
          renameKey q.1 ∉ (rest ++ (done ++ [(renameKey k, v)])).map Prod.fst := by
        intro q hq hfq
        have hq1 := h1 q (List.mem_cons_of_mem _ hq) hfq
        have hqrk : renameKey q.1 ≠ renameKey k := by
          intro heq
          exact hrkdistinct (heq ▸ List.mem_map.mpr
            ⟨q, List.mem_filter.mpr ⟨hq, hfq⟩, rfl⟩)
        simp only [List.cons_append, List.map_cons, List.mem_cons, not_or,
          List.map_append, List.mem_append, List.mem_singleton] at hq1 ⊢
        tauto
      rw [ih (done ++ [(renameKey k, v)]) hnd2 h12 h2tail]
      simp [List.filter_cons, hf, List.append_assoc]
    · -- the entry is discarded
      have hf' : isFeatureKey k = false := by simpa using hf
      have hstep : filterStep ((k, v) :: (rest ++ done)) k = rest ++ done := by
        simp [filterStep, hf', dictPop]
      rw [hstep]
      have h12 : ∀ q ∈ rest, isFeatureKey q.1 = true →
          renameKey q.1 ∉ (rest ++ done).map Prod.fst := by
        intro q hq hfq
        have hq1 := h1 q (List.mem_cons_of_mem _ hq) hfq
        simp only [List.cons_append, List.map_cons, List.mem_cons, not_or] at hq1
        exact hq1.2
      have h2tail : ((rest.filter (fun p => isFeatureKey p.1)).map
          (fun p => renameKey p.1)).Nodup := by
        simpa [List.filter_cons, hf'] using h2
      rw [ih done hnd' h12 h2tail]
      simp [List.filter_cons, hf']

/-- C2 (corrected): the `_load_model` state filter keeps exactly the entries
whose key CONTAINS the substring `"feature."` (not only those prefixed with
it), renaming each kept key by deleting every occurrence of `"feature."`;
provided the renamed keys collide neither with each other nor with any
original key, the filtered result contains precisely the renamed keys with
their original values. -/
theorem C2_filter_keeps_renamed_containing_entries {V : Type} (s : Dict V)
    (hnd : (s.map Prod.fst).Nodup)
    (h1 : ∀ p ∈ s, isFeatureKey p.1 = true → renameKey p.1 ∉ s.map Prod.fst)
    (h2 : ((s.filter (fun p => isFeatureKey p.1)).map
      (fun p => renameKey p.1)).Nodup) :
    filterState s = (s.filter (fun p => isFeatureKey p.1)).map
      (fun p => (renameKey p.1, p.2)) := by
  have h := filterLoop_spec s [] (by simpa using hnd) (by simpa using h1) h2
  simpa [filterState] using h

/-- Witness for C2: on `{"feature.trunk.0.weight": 0, "classifier.weight": 1}`
the filter keeps only the renamed `"trunk.0.weight"` entry. -/
theorem C2_filter_witness :
    filterState [("feature.trunk.0.weight", (0 : Nat)), ("classifier.weight", 1)]
      = [("trunk.0.weight", 0)] := by
  have h := C2_filter_keeps_renamed_containing_entries
    [("feature.trunk.0.weight", (0 : Nat)), ("classifier.weight", 1)]
    (by decide) (by decide) (by decide)
  exact h.trans (by decide)

/-- Counterexample for C2 as stated: the key `"classifier.feature.weight"`
is NOT prefixed with `"feature."`, so the claim says the entry is discarded
(the filtered result would be empty); the code keeps it, renamed to
`"classifier.weight"`, because the test is substring containment. -/
theorem C2_counterexample :
    filterState [("classifier.feature.weight", (0 : Nat))]
        = [("classifier.weight", 0)] ∧
      filterState [("classifier.feature.weight", (0 : Nat))] ≠ [] := by
  constructor
  · decide
  · decide

/-- C9: `apply` hands `model_state` only to `_load_model`, which copies the
`state` sub-mapping before filtering; at heap level the caller's object at
`stateRef` is untouched by the whole load, so `model_state['state']` holds
exactly the same entries after the step as before. -/
theorem C9_model_state_unchanged {V : Type} (h : PyHeap V) (stateRef : Nat) :
    ((loadModelOnHeap h stateRef).1).get stateRef = h.get stateRef := by
  rcases h with ⟨objs⟩
  simp only [loadModelOnHeap, PyHeap.get, PyHeap.alloc, PyHeap.setObj]
  rcases Nat.lt_or_ge stateRef objs.length with hlt | hge
  · rw [List.getD_eq_getElem?_getD, List.getD_eq_getElem?_getD,
      List.getElem?_set_ne (by omega), List.getElem?_append_left hlt]
  · have hc : objs.getD stateRef [] = [] := by
      rw [List.getD_eq_getElem?_getD, List.getElem?_len_le hge]; rfl
    rw [hc]
    have hfs : filterState ([] : Dict V) = [] := rfl
    rw [hfs]
    rcases Nat.eq_or_lt_of_le hge with heq | hgt
    · rw [← heq, List.getD_eq_getElem?_getD,
        List.getElem?_set_eq_of_lt _ (by simp)]
      rfl
    · rw [List.getD_eq_getElem?_getD, List.getElem?_len_le (by simp; omega)]
      rfl

/-- C3: for a meta-learning method (`maml` or `maml_approx`) `apply` logs,
returns `None`, creates no archive, and performs no filesystem writes. -/
theorem C3_meta_returns_none_no_writes {V E F : Type} (cfg : Config)
    (expectedKeys : List String) (ms : Dict V) (zF : F) (model : List E → List F)
    (batches : List (List E × List Int)) (d : Bool)
    (hm : cfg.method ∈ metaMethods) :
    Embedding.apply cfg expectedKeys ms zF model batches d =
      Except.ok { returned := none, save := none, fsEvents := [] } := by
  simp [Embedding.apply, hm]

/-- Witness for C3 at the concrete maml configuration. -/
theorem C3_meta_witness :
    Embedding.apply cfgMaml [] ([] : Dict Nat) (0 : Nat)
        (fun xs : List Nat => xs) [] true =
      Except.ok { returned := none, save := none, fsEvents := [] } :=
  C3_meta_returns_none_no_writes cfgMaml [] [] 0 (fun xs => xs) [] true
    (by decide)

/-- C5: whenever the key set of the filtered/renamed state mapping differs
from the extractor's expected parameter names, the strict `load_state_dict`
error propagates out of `apply`: no partial load, no archive, the step
aborts. -/
theorem C5_state_dict_mismatch_aborts {V E F : Type} (cfg : Config)
    (expectedKeys : List String) (ms : Dict V) (zF : F) (model : List E → List F)
    (batches : List (List E × List Int)) (d : Bool)
    (hm : cfg.method ∉ metaMethods)
    (hbad : keySetEq ((filterState ms).map Prod.fst) expectedKeys = false) :
    Embedding.apply cfg expectedKeys ms zF model batches d =
      Except.error loadStateDictMsg := by
  simp [Embedding.apply, hm, loadModel, hbad]

/-- Witness for C5: the extractor expects `"trunk.0.weight"` but the state
holds only `"classifier.weight"`, which the filter discards. -/
theorem C5_mismatch_witness :
    Embedding.apply cfgBaseline [("trunk.0.weight" : String)]
        [("classifier.weight", (0 : Nat))] (0 : Nat) (fun xs : List Nat => xs)
        [] true =
      Except.error loadStateDictMsg := by
  exact C5_state_dict_mismatch_aborts cfgBaseline _ _ _ _ _ _
    (by decide) (by decide)

end FewShotEmbedding

namespace FewShotEmbedding

theorem setSlice_length {α : Type} (a : List α) (lo : Nat) (vals : List α) :
    (setSlice a lo vals).length = a.length := by
  simp [setSlice, List.length_take, List.length_drop]
  omega

theorem processBatch_count {E F : Type} (zF : F) (mc : Nat)
    (model : List E → List F) (st : SaveState F) (b : List E × List Int) :
    (processBatch zF mc model st b).count = st.count + (model b.1).length := by
  cases h : st.h5feats <;> simp [processBatch, h]

theorem processBatch_mirror {E F : Type} (zF : F) (mc : Nat)
    (model : List E → List F) (st : SaveState F) (b : List E × List Int)
    (hl : st.h5labels = st.memLabels) (hf : st.h5feats = st.memFeats) :
    (processBatch zF mc model st b).h5labels
        = (processBatch zF mc model st b).memLabels ∧
      (processBatch zF mc model st b).h5feats
        = (processBatch zF mc model st b).memFeats := by
  cases h : st.h5feats with
  | none =>
    have hm : st.memFeats = none := by rw [← hf, h]
    constructor <;> simp [processBatch, h, hm, hl]
  | some a =>
    have hm : st.memFeats = some a := by rw [← hf, h]
    constructor <;> simp [processBatch, h, hm, hl]

theorem foldl_mirror {E F : Type} (zF : F) (mc : Nat) (model : List E → List F)
    (batches : List (List E × List Int)) :
    ∀ st : SaveState F, st.h5labels = st.memLabels → st.h5feats = st.memFeats →
      (batches.foldl (processBatch zF mc model) st).h5labels
          = (batches.foldl (processBatch zF mc model) st).memLabels ∧
        (batches.foldl (processBatch zF mc model) st).h5feats
          = (batches.foldl (processBatch zF mc model) st).memFeats := by
  induction batches with
  | nil => intro st hl hf; exact ⟨hl, hf⟩
  | cons b bs ih =>
    intro st hl hf
    have hb := processBatch_mirror zF mc model st b hl hf
    exact ih _ hb.1 hb.2

theorem foldl_count {E F : Type} (zF : F) (mc : Nat) (model : List E → List F)
    (batches : List (List E × List Int)) :
    ∀ st : SaveState F,
      (batches.foldl (processBatch zF mc model) st).count
        = st.count + (batches.map (fun b => (model b.1).length)).sum := by
  induction batches with
  | nil => intro st; simp
  | cons b bs ih =>
    intro st
    have h1 := processBatch_count zF mc model st b
    have h2 := ih (processBatch zF mc model st b)
    calc (bs.foldl (processBatch zF mc model) (processBatch zF mc model st b)).count
        = (processBatch zF mc model st b).count
            + (bs.map (fun b => (model b.1).length)).sum := h2
      _ = st.count + ((b :: bs).map (fun b => (model b.1).length)).sum := by
          rw [h1]; simp [List.map_cons, List.sum_cons]; omega

theorem processBatch_lengths {E F : Type} (zF : F) (mc : Nat)
    (model : List E → List F) (st : SaveState F) (b : List E × List Int)
    (h1 : st.h5labels.length = mc) (h2 : st.memLabels.length = mc)
    (h3 : ∀ a, st.h5feats = some a → a.length = mc)
    (h4 : ∀ a, st.memFeats = some a → a.length = mc) :
    (processBatch zF mc model st b).h5labels.length = mc ∧
      (processBatch zF mc model st b).memLabels.length = mc ∧
      (∀ a, (processBatch zF mc model st b).h5feats = some a → a.length = mc) ∧
      (∀ a, (processBatch zF mc model st b).memFeats = some a → a.length = mc) := by
  cases h : st.h5feats with
  | none =>
    refine ⟨?_, ?_, ?_, ?_⟩ <;>
      simp [processBatch, h, setSlice_length, h1, h2]
  | some a0 =>
    have ha0 : a0.length = mc := h3 a0 h
    cases hm : st.memFeats with
    | none =>
      refine ⟨?_, ?_, ?_, ?_⟩ <;>
        simp [processBatch, h, hm, setSlice_length, h1, h2, ha0]
    | some a1 =>
      have ha1 : a1.length = mc := h4 a1 hm
      refine ⟨?_, ?_, ?_, ?_⟩ <;>
        simp [processBatch, h, hm, setSlice_length, h1, h2, ha0, ha1]

theorem foldl_lengths {E F : Type} (zF : F) (mc : Nat) (model : List E → List F)
    (batches : List (List E × List Int)) :
    ∀ st : SaveState F,
      st.h5labels.length = mc → st.memLabels.length = mc →
      (∀ a, st.h5feats = some a → a.length = mc) →
      (∀ a, st.memFeats = some a → a.length = mc) →
      (batches.foldl (processBatch zF mc model) st).h5labels.length = mc ∧
        (batches.foldl (processBatch zF mc model) st).memLabels.length = mc ∧
        (∀ a, (batches.foldl (processBatch zF mc model) st).h5feats = some a
          → a.length = mc) ∧
        (∀ a, (batches.foldl (processBatch zF mc model) st).memFeats = some a
          → a.length = mc) := by
  induction batches with
  | nil => intro st h1 h2 h3 h4; exact ⟨h1, h2, h3, h4⟩
  | cons b bs ih =>
    intro st h1 h2 h3 h4
    obtain ⟨g1, g2, g3, g4⟩ := processBatch_lengths zF mc model st b h1 h2 h3 h4
    exact ih _ g1 g2 g3 g4

theorem processBatch_feats_isSome {E F : Type} (zF : F) (mc : Nat)
    (model : List E → List F) (st : SaveState F) (b : List E × List Int) :
    (processBatch zF mc model st b).h5feats.isSome := by
  cases h : st.h5feats <;> simp [processBatch, h]

theorem foldl_feats_isSome_preserved {E F : Type} (zF : F) (mc : Nat)
    (model : List E → List F) (bs : List (List E × List Int)) :
    ∀ st : SaveState F, st.h5feats.isSome →
      (bs.foldl (processBatch zF mc model) st).h5feats.isSome := by
  induction bs with
  | nil => intro st h; exact h
  | cons b bs ih =>
    intro st _
    exact ih _ (processBatch_feats_isSome zF mc model st b)

theorem foldl_feats_isSome {E F : Type} (zF : F) (mc : Nat)
    (model : List E → List F) (batches : List (List E × List Int))
    (hne : batches ≠ []) (st : SaveState F) :
    (batches.foldl (processBatch zF mc model) st).h5feats.isSome := by
  cases batches with
  | nil => exact absurd rfl hne
  | cons b bs =>
    exact foldl_feats_isSome_preserved zF mc model bs _
      (processBatch_feats_isSome zF mc model st b)

theorem processBatch_events {E F : Type} (zF : F) (mc : Nat)
    (model : List E → List F) (st : SaveState F) (b : List E × List Int) :
    ∃ tail, (processBatch zF mc model st b).events = st.events ++ tail ∧
      ∀ e ∈ tail, isLoopEvent e := by
  cases h : st.h5feats with
  | none =>
    refine ⟨[H5Event.createFeats mc, H5Event.writeFeats st.count (model b.1),
             H5Event.writeLabels st.count b.2], ?_, ?_⟩
    · simp [processBatch, h, List.append_assoc]
    · intro e he
      simp only [List.mem_cons, List.not_mem_nil, or_false] at he
      rcases he with rfl | rfl | rfl <;> trivial
  | some a =>
    refine ⟨[H5Event.writeFeats st.count (model b.1),
             H5Event.writeLabels st.count b.2], ?_, ?_⟩
    · simp [processBatch, h, List.append_assoc]
    · intro e he
      simp only [List.mem_cons, List.not_mem_nil, or_false] at he
      rcases he with rfl | rfl <;> trivial

theorem foldl_events {E F : Type} (zF : F) (mc : Nat) (model : List E → List F)
    (batches : List (List E × List Int)) :
    ∀ st : SaveState F, ∃ tail,
      (batches.foldl (processBatch zF mc model) st).events = st.events ++ tail ∧
      ∀ e ∈ tail, isLoopEvent e := by
  induction batches with
  | nil => intro st; exact ⟨[], by simp, by simp⟩
  | cons b bs ih =>
    intro st
    obtain ⟨t1, ht1, ht1p⟩ := processBatch_events zF mc model st b
    obtain ⟨t2, ht2, ht2p⟩ := ih (processBatch zF mc model st b)
    refine ⟨t1 ++ t2, ?_, ?_⟩
    · show (bs.foldl (processBatch zF mc model)
        (processBatch zF mc model st b)).events = st.events ++ (t1 ++ t2)
      rw [ht2, ht1, List.append_assoc]
    · intro e he
      rcases List.mem_append.mp he with hh | hh
      exacts [ht1p e hh, ht2p e hh]

theorem saveFeatures_eq {E F : Type} (zF : F) (model : List E → List F)
    (batches : List (List E × List Int)) (batchSize : Nat) :
    saveFeatures zF model batches batchSize =
      { events := (batches.foldl
            (processBatch zF (batches.length * batchSize) model)
            (initialSaveState F (batches.length * batchSize))).events
            ++ [H5Event.createCount,
                H5Event.writeCount (batches.foldl
                  (processBatch zF (batches.length * batchSize) model)
                  (initialSaveState F (batches.length * batchSize))).count,
                H5Event.close],
        h5labels := (batches.foldl
            (processBatch zF (batches.length * batchSize) model)
            (initialSaveState F (batches.length * batchSize))).h5labels,
        h5feats := (batches.foldl
            (processBatch zF (batches.length * batchSize) model)
            (initialSaveState F (batches.length * batchSize))).h5feats,
        h5count := some (batches.foldl
            (processBatch zF (batches.length * batchSize) model)
            (initialSaveState F (batches.length * batchSize))).count,
        memLabels := (batches.foldl
            (processBatch zF (batches.length * batchSize) model)
            (initialSaveState F (batches.length * batchSize))).memLabels,
        memFeats := (batches.foldl
            (processBatch zF (batches.length * batchSize) model)
            (initialSaveState F (batches.length * batchSize))).memFeats,
        count := (batches.foldl
            (processBatch zF (batches.length * batchSize) model)
            (initialSaveState F (batches.length * batchSize))).count } := rfl

theorem apply_nonmeta {V E F : Type} (cfg : Config) (expectedKeys : List String)
    (ms : Dict V) (zF : F) (model : List E → List F)
    (batches : List (List E × List Int)) (d : Bool)
    (hm : cfg.method ∉ metaMethods)
    (hok : keySetEq ((filterState ms).map Prod.fst) expectedKeys = true) :
    Embedding.apply cfg expectedKeys ms zF model batches d =
      Except.ok { returned := some ((saveFeatures zF model batches 64).memFeats,
                                    (saveFeatures zF model batches 64).memLabels),
                  save := some (saveFeatures zF model batches 64),
                  fsEvents := if d then [] else
                    [FsEvent.makedirs (osDirname (outfileFor cfg))] } := by
  have hm2 : ¬(cfg.method = "maml" ∨ cfg.method = "maml_approx") := by
    simpa [metaMethods] using hm
  simp [Embedding.apply, hm, loadModel, hok, getDataLoaderAndOutfile, hm2]

end FewShotEmbedding

namespace FewShotEmbedding

theorem startsWithSlash_append (s t : String) (hs : startsWithSlash s = false)
    (ht : startsWithSlash t = false) : startsWithSlash (s ++ t) = false := by
  simp only [startsWithSlash, String.data_append] at hs ht ⊢
  cases hsd : s.data with
  | nil => simpa using ht
  | cons c cs => rw [hsd] at hs; simpa using hs

theorem startsWithSlash_append_left (s t : String) (hs : s.data ≠ []) :
    startsWithSlash (s ++ t) = startsWithSlash s := by
  simp only [startsWithSlash, String.data_append]
  cases hsd : s.data with
  | nil => exact absurd hsd hs
  | cons c cs => simp

theorem data_append_ne_nil (s t : String) (hs : s.data ≠ []) :
    (s ++ t).data ≠ [] := by
  rw [String.data_append]
  exact fun hc => hs (List.append_eq_nil.mp hc).1

theorem data_append_underscore_ne_nil (s : String) :
    (s ++ underscoreSep).data ≠ [] := by
  rw [String.data_append]
  intro hc
  exact absurd (List.append_eq_nil.mp hc).2 (by decide)

theorem osPathJoin_normal (a b : String) (ha1 : a ≠ "")
    (ha2 : endsWithSlash a = false) (hb : startsWithSlash b = false) :
    osPathJoin a b = a ++ "/" ++ b := by
  simp [osPathJoin, hb, ha1, ha2]

/-- C6: the output path depends only on the checkpoint directory, the split
name and `save_iter`: `save_iter = -1` yields `<dir>/<split>.hdf5`, any
other value `n` yields `<dir>/<split>_<n>.hdf5`, and the containing
directory is created exactly when absent.  (For the join to be the plain
concatenation, the directory must be nonempty without a trailing slash and
the split must not start with one.) -/
theorem C6_outfile_deterministic (cfg : Config) (d : Bool)
    (hm : cfg.method ∉ metaMethods)
    (h1 : cfg.checkpoint_dir ≠ "")
    (h2 : endsWithSlash cfg.checkpoint_dir = false)
    (h3 : startsWithSlash cfg.split = false) :
    ∃ lo, getDataLoaderAndOutfile cfg d = some lo ∧
      (cfg.save_iter = -1 →
        lo.outfile = cfg.checkpoint_dir ++ "/" ++ (cfg.split ++ hdf5Ext)) ∧
      (cfg.save_iter ≠ -1 →
        lo.outfile = cfg.checkpoint_dir ++ "/" ++
          (cfg.split ++ underscoreSep ++ toString cfg.save_iter ++ hdf5Ext)) ∧
      lo.fsEvents
        = (if d then [] else [FsEvent.makedirs (osDirname lo.outfile)]) := by
  have hm2 : ¬(cfg.method = "maml" ∨ cfg.method = "maml_approx") := by
    simpa [metaMethods] using hm
  refine ⟨{ imageSize := if pyIn convMarker cfg.backbone then 84 else 224,
            outfile := outfileFor cfg, batchSize := 64,
            fsEvents := if d then []
              else [FsEvent.makedirs (osDirname (outfileFor cfg))] },
    ?_, ?_, ?_, rfl⟩
  · simp [getDataLoaderAndOutfile, hm2]
  · intro hsi
    have hb : startsWithSlash (cfg.split ++ hdf5Ext) = false :=
      startsWithSlash_append _ _ h3 (by decide)
    show outfileFor cfg = _
    rw [outfileFor, if_neg (by simp [hsi])]
    exact osPathJoin_normal _ _ h1 h2 hb
  · intro hsi
    have hb1 : startsWithSlash (cfg.split ++ underscoreSep) = false :=
      startsWithSlash_append _ _ h3 (by decide)
    have hb2 : startsWithSlash ((cfg.split ++ underscoreSep)
        ++ toString cfg.save_iter) = false := by
      rw [startsWithSlash_append_left _ _ (data_append_underscore_ne_nil _)]
      exact hb1
    have hb3 : startsWithSlash (((cfg.split ++ underscoreSep)
        ++ toString cfg.save_iter) ++ hdf5Ext) = false := by
      rw [startsWithSlash_append_left _ _
        (data_append_ne_nil _ _ (data_append_underscore_ne_nil _))]
      exact hb2
    show outfileFor cfg = _
    rw [outfileFor, if_pos hsi]
    exact osPathJoin_normal _ _ h1 h2 hb3

/-- Witness for C6 at the concrete baseline configuration. -/
theorem C6_outfile_witness :
    ∃ lo, getDataLoaderAndOutfile cfgBaseline false = some lo ∧
      (cfgBaseline.save_iter = -1 →
        lo.outfile = cfgBaseline.checkpoint_dir ++ "/"
          ++ (cfgBaseline.split ++ hdf5Ext)) ∧
      (cfgBaseline.save_iter ≠ -1 →
        lo.outfile = cfgBaseline.checkpoint_dir ++ "/" ++
          (cfgBaseline.split ++ underscoreSep
            ++ toString cfgBaseline.save_iter ++ hdf5Ext)) ∧
      lo.fsEvents
        = (if false then [] else [FsEvent.makedirs (osDirname lo.outfile)]) :=
  C6_outfile_deterministic cfgBaseline false (by decide) (by decide) (by decide)
    (by decide)

/-- C7: the image resolution passed to the data manager is a function of the
backbone name alone: 84 when the name contains `"Conv"`, 224 otherwise. -/
theorem C7_image_resolution (cfg : Config) (d : Bool)
    (hm : cfg.method ∉ metaMethods) :
    ∃ lo, getDataLoaderAndOutfile cfg d = some lo ∧
      (pyIn convMarker cfg.backbone = true → lo.imageSize = 84) ∧
      (pyIn convMarker cfg.backbone = false → lo.imageSize = 224) := by
  have hm2 : ¬(cfg.method = "maml" ∨ cfg.method = "maml_approx") := by
    simpa [metaMethods] using hm
  refine ⟨{ imageSize := if pyIn convMarker cfg.backbone then 84 else 224,
            outfile := outfileFor cfg, batchSize := 64,
            fsEvents := if d then []
              else [FsEvent.makedirs (osDirname (outfileFor cfg))] },
    ?_, ?_, ?_⟩
  · simp [getDataLoaderAndOutfile, hm2]
  · intro h; simp [h]
  · intro h; simp [h]

/-- Witness for C7 at the concrete baseline configuration (Conv4 backbone). -/
theorem C7_image_resolution_witness :
    ∃ lo, getDataLoaderAndOutfile cfgBaseline true = some lo ∧
      (pyIn convMarker cfgBaseline.backbone = true → lo.imageSize = 84) ∧
      (pyIn convMarker cfgBaseline.backbone = false → lo.imageSize = 224) :=
  C7_image_resolution cfgBaseline true (by decide)

end FewShotEmbedding

namespace FewShotEmbedding

/-- Counterexample to C1 as stated: with a data source of zero batches the
first component of the returned pair is `None` — not an array whose first
dimension is the capacity 0 * 64 = 0 (which would be `[]`).  The second
conjunct records that the actual returned value differs from the
claim-predicted one. -/
theorem C1_counterexample :
    Embedding.apply cfgBaseline [("trunk.0.weight" : String)]
        [("feature.trunk.0.weight", (0 : Nat))] (0 : Nat)
        (fun xs : List Nat => xs) [] true =
      Except.ok { returned := some ((none : Option (List Nat)), ([] : List Int)),
                  save := some { events := [H5Event.openW, H5Event.createLabels 0,
                                   H5Event.createCount, H5Event.writeCount 0,
                                   H5Event.close],
                                 h5labels := [], h5feats := none,
                                 h5count := some 0, memLabels := [],
                                 memFeats := none, count := 0 },
                  fsEvents := [] } ∧
      some ((none : Option (List Nat)), ([] : List Int))
        ≠ some (some ([] : List Nat), ([] : List Int)) := by
  exact ⟨rfl, by decide⟩

/-- C1 (corrected): for every non-meta configuration whose filtered state
matches the extractor's parameter names, and every data source yielding at
least one batch — loader-shaped: at most 64 examples per batch, labels
aligned with images, forward pass preserving the batch cardinality —
`apply` returns a pair of arrays whose first dimension equals the capacity
`len(data_loader) * 64`, and the scalar `count` written to the archive
equals the total number of examples yielded.  (With zero batches the
features component is `None`, see the counterexample.) -/
theorem C1_capacity_and_count {V E F : Type} (cfg : Config)
    (expectedKeys : List String) (ms : Dict V) (zF : F)
    (model : List E → List F) (batches : List (List E × List Int)) (d : Bool)
    (hm : cfg.method ∉ metaMethods)
    (hok : keySetEq ((filterState ms).map Prod.fst) expectedKeys = true)
    (hne : batches ≠ [])
    (hsz : ∀ b ∈ batches, b.1.length ≤ 64)
    (hlab : ∀ b ∈ batches, b.2.length = b.1.length)
    (hmodel : ∀ xs, (model xs).length = xs.length) :
    ∃ res st feats, Embedding.apply cfg expectedKeys ms zF model batches d
        = Except.ok res ∧
      res.save = some st ∧
      res.returned = some (some feats, st.memLabels) ∧
      st.memFeats = some feats ∧
      feats.length = batches.length * 64 ∧
      st.memLabels.length = batches.length * 64 ∧
      st.h5count = some ((batches.map (fun b => b.1.length)).sum) := by
  have happ := apply_nonmeta cfg expectedKeys ms zF model batches d hm hok
  have hsome := foldl_feats_isSome zF (batches.length * 64) model batches hne
    (initialSaveState F (batches.length * 64))
  have hmirror := foldl_mirror zF (batches.length * 64) model batches
    (initialSaveState F (batches.length * 64)) rfl rfl
  have hlen := foldl_lengths zF (batches.length * 64) model batches
    (initialSaveState F (batches.length * 64))
    (by simp [initialSaveState]) (by simp [initialSaveState])
    (by simp [initialSaveState]) (by simp [initialSaveState])
  have hcnt := foldl_count zF (batches.length * 64) model batches
    (initialSaveState F (batches.length * 64))
  obtain ⟨fl, hfl⟩ := Option.isSome_iff_exists.mp hsome
  have hflmem : (batches.foldl (processBatch zF (batches.length * 64) model)
      (initialSaveState F (batches.length * 64))).memFeats = some fl := by
    rw [← hmirror.2]; exact hfl
  have hstmf : (saveFeatures zF model batches 64).memFeats = some fl := hflmem
  refine ⟨_, saveFeatures zF model batches 64, fl, happ, rfl, ?_, hstmf, ?_, ?_, ?_⟩
  · show some ((saveFeatures zF model batches 64).memFeats,
      (saveFeatures zF model batches 64).memLabels)
      = some (some fl, (saveFeatures zF model batches 64).memLabels)
    rw [hstmf]
  · exact hlen.2.2.2 fl hflmem
  · exact hlen.2.1
  · have hmapeq : batches.map (fun b => (model b.1).length)
        = batches.map (fun b => b.1.length) :=
      List.map_congr_left (fun b _ => hmodel b.1)
    show some (batches.foldl (processBatch zF (batches.length * 64) model)
      (initialSaveState F (batches.length * 64))).count = _
    rw [hcnt, hmapeq]
    simp [initialSaveState]

/-- Witness for C1 at a concrete one-batch data source of two examples. -/
theorem C1_capacity_witness :
    ∃ res st feats, Embedding.apply cfgBaseline [("trunk.0.weight" : String)]
        [("feature.trunk.0.weight", (0 : Nat))] (0 : Nat)
        (fun xs : List Nat => xs) [([1, 2], [5, 6])] true = Except.ok res ∧
      res.save = some st ∧
      res.returned = some (some feats, st.memLabels) ∧
      st.memFeats = some feats ∧
      feats.length = [([1, 2], [5, 6])].length * 64 ∧
      st.memLabels.length = [([1, 2], [5, 6])].length * 64 ∧
      st.h5count
        = some (([(([1, 2] : List Nat), ([5, 6] : List Int))].map
            (fun b => b.1.length)).sum) :=
  C1_capacity_and_count cfgBaseline _ _ _ _ _ _ (by decide) (by decide)
    (by decide) (by decide) (by decide) (fun xs => rfl)

/-- C4: for every non-meta configuration (with a matching state dict), the
archive contents of `all_feats` and `all_labels` agree, at every index below
the written `count`, with the in-memory arrays that `apply` returns, and the
`count` field records the final write offset. -/
theorem C4_roundtrip {V E F : Type} (cfg : Config) (expectedKeys : List String)
    (ms : Dict V) (zF : F) (model : List E → List F)
    (batches : List (List E × List Int)) (d : Bool)
    (hm : cfg.method ∉ metaMethods)
    (hok : keySetEq ((filterState ms).map Prod.fst) expectedKeys = true) :
    ∃ res st, Embedding.apply cfg expectedKeys ms zF model batches d
        = Except.ok res ∧
      res.save = some st ∧
      res.returned = some (st.memFeats, st.memLabels) ∧
      st.h5count = some st.count ∧
      (∀ i, i < st.count → st.h5labels[i]? = st.memLabels[i]?) ∧
      (∀ fa ma, st.h5feats = some fa → st.memFeats = some ma →
        ∀ i, i < st.count → fa[i]? = ma[i]?) := by
  have happ := apply_nonmeta cfg expectedKeys ms zF model batches d hm hok
  have hmirror := foldl_mirror zF (batches.length * 64) model batches
    (initialSaveState F (batches.length * 64)) rfl rfl
  refine ⟨_, saveFeatures zF model batches 64, happ, rfl, rfl, rfl, ?_, ?_⟩
  · intro i _
    have hl : (saveFeatures zF model batches 64).h5labels
        = (saveFeatures zF model batches 64).memLabels := hmirror.1
    rw [hl]
  · intro fa ma hfa hma i _
    have hfm : (saveFeatures zF model batches 64).h5feats
        = (saveFeatures zF model batches 64).memFeats := hmirror.2
    rw [hfa, hma] at hfm
    have h := Option.some.inj hfm
    rw [h]

/-- Witness for C4 at a concrete one-batch data source. -/
theorem C4_roundtrip_witness :
    ∃ res st, Embedding.apply cfgBaseline [("trunk.0.weight" : String)]
        [("feature.trunk.0.weight", (0 : Nat))] (0 : Nat)
        (fun xs : List Nat => xs) [([3], [7])] true = Except.ok res ∧
      res.save = some st ∧
      res.returned = some (st.memFeats, st.memLabels) ∧
      st.h5count = some st.count ∧
      (∀ i, i < st.count → st.h5labels[i]? = st.memLabels[i]?) ∧
      (∀ fa ma, st.h5feats = some fa → st.memFeats = some ma →
        ∀ i, i < st.count → fa[i]? = ma[i]?) :=
  C4_roundtrip cfgBaseline _ _ _ _ _ _ (by decide) (by decide)

end FewShotEmbedding

namespace FewShotEmbedding

theorem trace_positions {F : Type} (P : List (H5Event F)) (c : Nat)
    (hP : ∀ e ∈ P, (∀ n, e ≠ H5Event.writeCount n) ∧ e ≠ H5Event.close) :
    ∃ i, (P ++ [H5Event.createCount, H5Event.writeCount c, H5Event.close])[i]?
        = some (H5Event.writeCount c) ∧
      (∀ j lo rows, (P ++ [H5Event.createCount, H5Event.writeCount c,
          H5Event.close])[j]? = some (H5Event.writeFeats lo rows) → j < i) ∧
      (∀ j lo vals, (P ++ [H5Event.createCount, H5Event.writeCount c,
          H5Event.close])[j]? = some (H5Event.writeLabels lo vals) → j < i) ∧
      (∀ j : Nat, (P ++ [H5Event.createCount, H5Event.writeCount c,
          H5Event.close])[j]? = some (H5Event.close : H5Event F) → i < j) ∧
      (∃ j : Nat, (P ++ [H5Event.createCount, H5Event.writeCount c,
          H5Event.close])[j]? = some (H5Event.close : H5Event F)) := by
  refine ⟨P.length + 1, ?_, ?_, ?_, ?_, ⟨P.length + 2, ?_⟩⟩
  · rw [List.getElem?_append_right (by omega)]
    have h1 : P.length + 1 - P.length = 1 := by omega
    rw [h1]
    rfl
  · intro j lo rows hj
    rcases Nat.lt_or_ge j P.length with hlt | hge
    · omega
    · rw [List.getElem?_append_right hge] at hj
      have hd : j - P.length = 0 ∨ j - P.length = 1 ∨ j - P.length = 2
          ∨ 3 ≤ j - P.length := by omega
      rcases hd with hd | hd | hd | hd
      · rw [hd] at hj; simp at hj
      · rw [hd] at hj; simp at hj
      · rw [hd] at hj; simp at hj
      · rw [List.getElem?_len_le (by simpa using hd)] at hj; simp at hj
  · intro j lo vals hj
    rcases Nat.lt_or_ge j P.length with hlt | hge
    · omega
    · rw [List.getElem?_append_right hge] at hj
      have hd : j - P.length = 0 ∨ j - P.length = 1 ∨ j - P.length = 2
          ∨ 3 ≤ j - P.length := by omega
      rcases hd with hd | hd | hd | hd
      · rw [hd] at hj; simp at hj
      · rw [hd] at hj; simp at hj
      · rw [hd] at hj; simp at hj
      · rw [List.getElem?_len_le (by simpa using hd)] at hj; simp at hj
  · intro j hj
    rcases Nat.lt_or_ge j P.length with hlt | hge
    · rw [List.getElem?_append_left hlt] at hj
      exact absurd rfl ((hP _ (List.getElem?_mem hj)).2)
    · rw [List.getElem?_append_right hge] at hj
      have hd : j - P.length = 0 ∨ j - P.length = 1 ∨ j - P.length = 2
          ∨ 3 ≤ j - P.length := by omega
      rcases hd with hd | hd | hd | hd
      · rw [hd] at hj; simp at hj
      · rw [hd] at hj; simp at hj
      · omega
      · rw [List.getElem?_len_le (by simpa using hd)] at hj; simp at hj
  · rw [List.getElem?_append_right (by omega)]
    have h2 : P.length + 2 - P.length = 2 := by omega
    rw [h2]
    rfl

/-- C8: in the archive-event trace of `_save_features`, the `count` value is
written strictly after every feature-row write and every label-row write,
and the close of the archive comes strictly after the `count` write (and
both the `count` write and the close do occur). -/
theorem C8_count_written_after_rows {E F : Type} (zF : F)
    (model : List E → List F) (batches : List (List E × List Int))
    (batchSize : Nat) :
    ∃ i c, (saveFeatures zF model batches batchSize).events[i]?
        = some (H5Event.writeCount c) ∧
      (∀ j lo rows, (saveFeatures zF model batches batchSize).events[j]?
          = some (H5Event.writeFeats lo rows) → j < i) ∧
      (∀ j lo vals, (saveFeatures zF model batches batchSize).events[j]?
          = some (H5Event.writeLabels lo vals) → j < i) ∧
      (∀ j : Nat, (saveFeatures zF model batches batchSize).events[j]?
          = some (H5Event.close : H5Event F) → i < j) ∧
      (∃ j : Nat, (saveFeatures zF model batches batchSize).events[j]?
          = some (H5Event.close : H5Event F)) := by
  obtain ⟨tail, htail, htailp⟩ := foldl_events zF (batches.length * batchSize)
    model batches (initialSaveState F (batches.length * batchSize))
  have hev : (saveFeatures zF model batches batchSize).events
      = ([H5Event.openW,
          H5Event.createLabels (batches.length * batchSize)] ++ tail)
        ++ [H5Event.createCount,
            H5Event.writeCount (batches.foldl
              (processBatch zF (batches.length * batchSize) model)
              (initialSaveState F (batches.length * batchSize))).count,
            H5Event.close] := by
    show (batches.foldl (processBatch zF (batches.length * batchSize) model)
        (initialSaveState F (batches.length * batchSize))).events
      ++ [H5Event.createCount,
          H5Event.writeCount (batches.foldl
            (processBatch zF (batches.length * batchSize) model)
            (initialSaveState F (batches.length * batchSize))).count,
          H5Event.close] = _
    rw [htail]
    rfl
  have hP : ∀ e ∈ ([H5Event.openW,
      H5Event.createLabels (batches.length * batchSize)] ++ tail),
      (∀ n, e ≠ H5Event.writeCount n) ∧ e ≠ H5Event.close := by
    intro e he
    rcases List.mem_append.mp he with hh | hh
    · simp only [List.mem_cons, List.not_mem_nil, or_false] at hh
      rcases hh with rfl | rfl
      · exact ⟨fun n h => H5Event.noConfusion h, fun h => H5Event.noConfusion h⟩
      · exact ⟨fun n h => H5Event.noConfusion h, fun h => H5Event.noConfusion h⟩
    · have hl := htailp e hh
      cases e <;> simp [isLoopEvent] at hl ⊢
  obtain ⟨i, hi, hf, hlbl, hcl, hex⟩ := trace_positions
    ([H5Event.openW, H5Event.createLabels (batches.length * batchSize)] ++ tail)
    (batches.foldl (processBatch zF (batches.length * batchSize) model)
      (initialSaveState F (batches.length * batchSize))).count hP
  refine ⟨i, (batches.foldl (processBatch zF (batches.length * batchSize) model)
    (initialSaveState F (batches.length * batchSize))).count, ?_, ?_, ?_, ?_, ?_⟩
  · rw [hev]; exact hi
  · rw [hev]; exact hf
  · rw [hev]; exact hlbl
  · rw [hev]; exact hcl
  · rw [hev]; exact hex

/-- C10: with a data source yielding zero batches, `apply` returns a pair
whose first component is `None` (no features array is ever allocated) and
whose second is the zero-capacity all-zero label array `[]`; the archive
holds the `all_labels` dataset and the `count` dataset (with value 0) but no
`all_feats` dataset, since that one is only created on the first batch. -/
theorem C10_zero_batches {V E F : Type} (cfg : Config)
    (expectedKeys : List String) (ms : Dict V) (zF : F)
    (model : List E → List F) (d : Bool)
    (hm : cfg.method ∉ metaMethods)
    (hok : keySetEq ((filterState ms).map Prod.fst) expectedKeys = true) :
    ∃ res st, Embedding.apply cfg expectedKeys ms zF model
        ([] : List (List E × List Int)) d = Except.ok res ∧
      res.save = some st ∧
      res.returned = some ((none : Option (List F)), ([] : List Int)) ∧
      st.memFeats = none ∧ st.memLabels = [] ∧
      st.h5feats = none ∧ st.h5labels = [] ∧ st.h5count = some 0 ∧
      H5Event.createLabels 0 ∈ st.events ∧
      H5Event.createCount ∈ st.events ∧
      (∀ cap, H5Event.createFeats cap ∉ st.events) := by
  have happ := apply_nonmeta cfg expectedKeys ms zF model [] d hm hok
  refine ⟨_, saveFeatures zF model [] 64, happ, rfl, rfl, rfl, rfl, rfl, rfl,
    rfl, ?_, ?_, ?_⟩
  · show H5Event.createLabels 0 ∈
      ([H5Event.openW, H5Event.createLabels 0, H5Event.createCount,
        H5Event.writeCount 0, H5Event.close] : List (H5Event F))
    simp
  · show H5Event.createCount ∈
      ([H5Event.openW, H5Event.createLabels 0, H5Event.createCount,
        H5Event.writeCount 0, H5Event.close] : List (H5Event F))
    simp
  · intro cap
    show H5Event.createFeats cap ∉
      ([H5Event.openW, H5Event.createLabels 0, H5Event.createCount,
        H5Event.writeCount 0, H5Event.close] : List (H5Event F))
    simp

/-- Witness for C10: zero batches at the concrete baseline configuration. -/
theorem C10_zero_batches_witness :
    ∃ res st, Embedding.apply cfgBaseline [("trunk.0.weight" : String)]
        [("feature.trunk.0.weight", (0 : Nat))] (0 : Nat)
        (fun xs : List Nat => xs) ([] : List (List Nat × List Int)) false
        = Except.ok res ∧
      res.save = some st ∧
      res.returned = some ((none : Option (List Nat)), ([] : List Int)) ∧
      st.memFeats = none ∧ st.memLabels = [] ∧
      st.h5feats = none ∧ st.h5labels = [] ∧ st.h5count = some 0 ∧
      H5Event.createLabels 0 ∈ st.events ∧
      H5Event.createCount ∈ st.events ∧
      (∀ cap, H5Event.createFeats cap ∉ st.events) :=
  C10_zero_batches cfgBaseline _ _ _ _ _ (by decide) (by decide)

end FewShotEmbedding
